import Mathlib

/-!
Verification of the SIA-FKBA event-registration platform.

Shallow embedding of the code under verification:
* `payments/views.py` — webhook token check and the Asaas webhook handler;
* `payments/models.py` — `Payment.mark_as_paid` and `Payment.is_paid`;
* `events/forms.py` — WhatsApp normalisation in `AthleteRegistrationForm.clean`;
* `matchmaking/services.py` — weight-range parsing, chunk splitting,
  bracket generation and match-tree construction;
* `core/views.py` — dashboard event summary, staff payment action;
* `events/views.py` — self-service payment handling.

Machine integers do not occur (Python integers are unbounded); Python
`Decimal` weights are embedded as `ℚ`; database rows are explicit lists.
-/

deriving instance DecidableEq for Except

/-! ## JSON values (webhook payloads)

Python `json.loads` results restricted to the shapes the webhook code
inspects; arrays never reach a handled branch (a non-object top level
raises before any field access) and are omitted. -/

inductive Json where
  | null : Json
  | bool : Bool → Json
  | num : Int → Json
  | str : String → Json
  | obj : List (String × Json) → Json

/-- Python truthiness of a JSON value (`if status:` and the `or` chains). -/
def Json.truthy : Json → Bool
  | .null => false
  | .bool b => b
  | .num n => n != 0
  | .str s => s != ""
  | .obj fs => !fs.isEmpty

/-- Python `dict.get(key)`: `none` on a non-dict or a missing key. -/
def Json.get : Json → String → Option Json
  | .obj fs, k => fs.lookup k
  | _, _ => none

/-- Python `a or b` where `a` is an optional JSON lookup result:
falsy or missing falls through to the default. -/
def Json.orDefault (o : Option Json) (dflt : Json) : Json :=
  match o with
  | some v => if v.truthy then v else dflt
  | none => dflt

/-- Check that a JSON value is the string `s` (string comparison against a
`TextChoices` member, and the unique `asaas_payment_id` column lookup). -/
def Json.isStr (j : Json) (s : String) : Bool :=
  match j with
  | .str t => t == s
  | _ => false

/-! ## Webhook token check (`payments/views.py`, `_has_valid_token`) -/

/-- Request headers inspected by `_has_valid_token`; `none` models an
absent header. -/
structure WebhookHeaders where
  xAsaasToken : Option String
  asaasAccessToken : Option String
  authorization : Option String

/-- Embedding of `_has_valid_token`: without a configured secret every
request passes; otherwise some non-empty candidate header must equal the
secret or `"Bearer " ++ secret`. -/
def hasValidToken (expected : String) (h : WebhookHeaders) : Bool :=
  if expected = "" then true
  else
    [h.xAsaasToken, h.asaasAccessToken, h.authorization].any fun c =>
      match c with
      | none => false
      | some t => (t != "") && (t == expected || t == "Bearer " ++ expected)

/-! ## Payment records and `mark_as_paid` (`payments/models.py`)

The one-to-one registration is flattened into the payment row as its
status string (`events.models.AthleteRegistration.Status` values are
lowercase). The stored payment status is a `Json` value because the
webhook's non-paid branch assigns the raw payload field to it. -/

structure PaymentRec where
  asaasId : String
  status : Json
  paidAt : Option Nat
  payload : Json
  regStatus : String

/-- Embedding of `Payment.mark_as_paid`: status falls back to `RECEIVED`
on a falsy argument, `paid_at` is set to now, the payload snapshot is
replaced when one is given, and the registration cascades to confirmed. -/
def PaymentRec.markAsPaid (p : PaymentRec) (eventStatus : Option Json)
    (payload : Option Json) (now : Nat) : PaymentRec :=
  { p with
    status :=
      match eventStatus with
      | some s => if s.truthy then s else Json.str "RECEIVED"
      | none => Json.str "RECEIVED"
    paidAt := some now
    payload :=
      match payload with
      | some pl => pl
      | none => p.payload
    regStatus := "confirmed" }

/-- Embedding of the `Payment.is_paid` property. -/
def PaymentRec.isPaid (p : PaymentRec) : Bool :=
  p.status.isStr "RECEIVED" || p.status.isStr "CONFIRMED"

/-! ## Webhook handler (`payments/views.py`, `asaas_webhook`) -/

inductive WebhookResponse where
  | forbidden          -- HTTP 403, empty body
  | invalidJson        -- HTTP 400, error JSON invalido
  | missingPaymentId   -- HTTP 400, error Pagamento nao informado
  | notFound           -- HTTP 404, detail Pagamento nao encontrado
  | serverError        -- uncaught AttributeError on a non-object top level
  | ok                 -- HTTP 200, body ok true
deriving Repr, DecidableEq

/-- Payment-data resolution: `payload.get('payment') or payload.get('data')
or payload`. -/
def paymentDataOf (payload : Json) : Json :=
  Json.orDefault (payload.get "payment") (Json.orDefault (payload.get "data") payload)

/-- Check `status in {Payment.Status.RECEIVED, Payment.Status.CONFIRMED}`
on the optional status field of the payment data. -/
def webhookStatusPaid (status : Option Json) : Bool :=
  match status with
  | some s => s.isStr "RECEIVED" || s.isStr "CONFIRMED"
  | none => false

/-- Per-payment effect of the webhook once the row has been found: the
paid statuses trigger `mark_as_paid` with the raw payment data; any other
truthy status is stored alone, and the payload snapshot is refreshed
(the payment data is always a JSON object at this point). -/
def webhookApplyUpdate (pd : Json) (now : Nat) (p : PaymentRec) : PaymentRec :=
  if webhookStatusPaid (pd.get "status") then
    p.markAsPaid (pd.get "status") (some pd) now
  else
    let p1 :=
      match pd.get "status" with
      | some s => if s.truthy then { p with status := s } else p
      | none => p
    { p1 with payload := pd }

/-- Embedding of `asaas_webhook`. The body is `none` when JSON decoding
failed. `Payment.objects.get(asaas_payment_id=...)` is embedded as a
lookup over the row list; the column is declared `unique=True`, so the
guarded map touches the single matching row. -/
def asaasWebhook (secret : String) (headers : WebhookHeaders) (body : Option Json)
    (now : Nat) (payments : List PaymentRec) : WebhookResponse × List PaymentRec :=
  if !hasValidToken secret headers then (.forbidden, payments)
  else
    match body with
    | none => (.invalidJson, payments)
    | some payload =>
      match payload with
      | .obj _ =>
        let pd := paymentDataOf payload
        let paymentId : Option Json :=
          match pd with
          | .obj _ => pd.get "id"
          | _ => none
        match paymentId with
        | none => (.missingPaymentId, payments)
        | some pid =>
          if !pid.truthy then (.missingPaymentId, payments)
          else if payments.any (fun p => pid.isStr p.asaasId) then
            (.ok, payments.map fun p =>
              if pid.isStr p.asaasId then webhookApplyUpdate pd now p else p)
          else (.notFound, payments)
      | _ => (.serverError, payments)

/-! ## WhatsApp normalisation (`events/forms.py`, `AthleteRegistrationForm.clean`) -/

/-- Core of the WhatsApp normalisation, after the digit filter: strip one
leading international `00`, split off a leading `55` country code, check
the national number has 10 or 11 digits, store `55 ++ national`. -/
def cleanWhatsappStrip00 (digits : List Char) : List Char :=
  if digits.take 2 = ['0', '0'] then digits.drop 2 else digits

def cleanWhatsappNational (digits : List Char) : List Char :=
  if (cleanWhatsappStrip00 digits).take 2 = ['5', '5'] then
    (cleanWhatsappStrip00 digits).drop 2
  else cleanWhatsappStrip00 digits

def cleanWhatsappDigits (digits : List Char) : Except String (List Char) :=
  if digits.isEmpty then .error "Informe o WhatsApp com DDD."
  else if (cleanWhatsappNational digits).length = 10 ∨
      (cleanWhatsappNational digits).length = 11 then
    .ok ('5' :: '5' :: cleanWhatsappNational digits)
  else
    .error "Informe o WhatsApp com DDI 55, DDD e numero (10 ou 11 digitos)."

/-- Embedding of the whatsapp branch of `AthleteRegistrationForm.clean`:
non-digits are stripped first, then `cleanWhatsappDigits` runs. -/
def cleanWhatsapp (raw : String) : Except String String :=
  (cleanWhatsappDigits (raw.data.filter Char.isDigit)).map fun l => String.mk l

/-! ## Weight ranges (`matchmaking/services.py`) -/

/-- Embedding of the `WeightRange` dataclass; `Decimal` becomes `ℚ`. -/
structure WeightRange where
  label : String
  lower : ℚ
  upper : Option ℚ
deriving Repr, DecidableEq

/-- Embedding of `WeightRange.contains`. -/
def WeightRange.contains (r : WeightRange) (weight : ℚ) : Bool :=
  match r.upper with
  | none => decide (r.lower < weight)
  | some u =>
    if r.lower = 0 then decide (weight ≤ u)
    else decide (r.lower < weight ∧ weight ≤ u)

/-- Parse a plain decimal numeral (digits with at most one point), the
shapes of `Decimal(...)` that weight tokens take after normalisation;
`a.bc` denotes the rational `(a * 100 + bc) / 100`. -/
def parseDecimal (cs : List Char) : Option ℚ :=
  let parts := cs.splitOn '.'
  let digitsVal : List Char → Option ℕ := fun ds =>
    if ds.all Char.isDigit then
      some (ds.foldl (fun acc c => acc * 10 + (c.toNat - 48)) 0)
    else none
  match parts with
  | [intPart] =>
    if intPart.isEmpty then none
    else (digitsVal intPart).map fun n => (n : ℚ)
  | [intPart, fracPart] =>
    if intPart.isEmpty ∧ fracPart.isEmpty then none
    else
      match digitsVal intPart, digitsVal fracPart with
      | some n, some f =>
        some (Rat.divInt (n * 10 ^ fracPart.length + f) (10 ^ fracPart.length))
      | _, _ => none
  | _ => none

/-- Python `str.replace('kg', '')`: remove every non-overlapping
occurrence of the two-character pattern, scanning left to right. -/
def removeKg : List Char → List Char
  | 'k' :: 'g' :: rest => removeKg rest
  | c :: rest => c :: removeKg rest
  | [] => []

/-- Python `str.lower()` on the characters a weight token can contain
(ASCII letters). -/
def asciiToLower (c : Char) : Char :=
  if 'A' ≤ c ∧ c ≤ 'Z' then Char.ofNat (c.toNat + 32) else c

/-- Embedding of `_parse_weight_token`: lower-case, strip `kg` and spaces,
remember whether a `+` appears as a leading or trailing mark, strip `+`,
accept a decimal comma, then parse; `none` models the raised
`ClassificationError`. -/
def parseWeightToken (token : String) : Option (ℚ × Bool) :=
  let cleaned := (removeKg (token.data.map asciiToLower)).filter (· ≠ ' ')
  let isPlus := cleaned.headD ' ' = '+' || cleaned.getLastD ' ' = '+'
  let cleaned := (cleaned.filter (· ≠ '+')).map fun c => if c = ',' then '.' else c
  if cleaned.isEmpty then none
  else (parseDecimal cleaned).map fun v => (v, isPlus)

/-- Embedding of `_build_weight_ranges`: tokens build successive ranges;
a plain token closes a range at its value, a plus token opens an unbounded
range; both update the previous upper bound; a blank token is skipped and
a bad token aborts the whole list (the Python exception). -/
def buildWeightRanges (weights : List String) : Except String (List WeightRange) :=
  go weights none []
where
  go : List String → Option ℚ → List WeightRange → Except String (List WeightRange)
  | [], _, acc => .ok acc.reverse
  | raw :: rest, previousUpper, acc =>
    let token := String.mk
      (((raw.data.dropWhile Char.isWhitespace).reverse.dropWhile Char.isWhitespace).reverse)
    if token = "" then go rest previousUpper acc
    else
      match parseWeightToken token with
      | none => .error token
      | some (value, isPlus) =>
        let lower := previousUpper.getD 0
        if isPlus then
          go rest (some value) ({ label := token, lower := lower, upper := none } :: acc)
        else
          go rest (some value) ({ label := token, lower := lower, upper := some value } :: acc)

/-! ## Dashboard event summary (`core/views.py`, `DashboardView.get_context_data`) -/

structure EventRow where
  isPublished : Bool
  registrationDeadline : Int
deriving Repr, DecidableEq

structure EventSummary where
  total : ℕ
  publicados : ℕ
  inscricoesAbertas : ℕ
deriving Repr, DecidableEq

/-- Embedding of the `resumo_eventos` computation: the published queryset
is counted for both the `total` and the `publicados` figures, and
`inscricoes_abertas` filters it by `registration_deadline >= now`. -/
def dashboardEventSummary (events : List EventRow) (agora : Int) : EventSummary :=
  let eventosPublicados := events.filter (·.isPublished)
  { total := eventosPublicados.length
    publicados := eventosPublicados.length
    inscricoesAbertas :=
      (eventosPublicados.filter (fun e => agora ≤ e.registrationDeadline)).length }

/-! ## Payment actions (`core/views.py` staff action, `events/views.py`
self-service `_handle_payment`)

Registration statuses are the lowercase `AthleteRegistration.Status`
values. The gateway call `create_payment_for_registration` is abstracted
as an outcome parameter; `gatewayCalls` counts its invocations. -/

structure RegistrationState where
  status : String
  eventIsFree : Bool
deriving Repr, DecidableEq

inductive GatewayOutcome where
  | success (hasLink : Bool)
  | missingConfiguration
  | apiError
deriving Repr, DecidableEq

inductive FlashMessage where
  | errorConfig
  | errorApi
  | successLink
  | successNoLink
  | infoFreeEvent
  | infoAlreadyConfirmed
deriving Repr, DecidableEq

structure PaymentActionResult where
  registration : RegistrationState
  gatewayCalls : ℕ
  messages : List FlashMessage
deriving Repr, DecidableEq

/-- Embedding of the `action == 'resend'` branch of
`RegistrationPaymentActionView.post`: the gateway is always asked for a
payment; on success the registration is forced back to pending. -/
def registrationPaymentActionResend (reg : RegistrationState)
    (gateway : GatewayOutcome) : PaymentActionResult :=
  match gateway with
  | .missingConfiguration => ⟨reg, 1, [.errorConfig]⟩
  | .apiError => ⟨reg, 1, [.errorApi]⟩
  | .success hasLink =>
    let reg1 := if reg.status ≠ "pending" then { reg with status := "pending" } else reg
    ⟨reg1, 1, [if hasLink then .successLink else .successNoLink]⟩

/-- Embedding of `AthleteRegistrationLookupView._handle_payment`: a free
event just confirms, a confirmed paid registration is left alone with no
gateway call, otherwise a payment is requested. -/
def lookupHandlePayment (reg : RegistrationState)
    (gateway : GatewayOutcome) : PaymentActionResult :=
  if reg.eventIsFree then
    let reg1 := if reg.status ≠ "confirmed" then { reg with status := "confirmed" } else reg
    ⟨reg1, 0, [.infoFreeEvent]⟩
  else if reg.status = "confirmed" then
    ⟨reg, 0, [.infoAlreadyConfirmed]⟩
  else
    match gateway with
    | .missingConfiguration => ⟨reg, 1, [.errorConfig]⟩
    | .apiError => ⟨reg, 1, [.errorApi]⟩
    | .success hasLink => ⟨reg, 1, [if hasLink then .successLink else .successNoLink]⟩

/-! ## Next power of two (`matchmaking/services.py`, `_next_power_of_two`) -/

/-- Doubling loop of `_next_power_of_two` (`while result < value: result <<= 1`);
the fuel bounds the loop and `value` iterations always suffice. -/
def npowLoop (value : ℕ) : ℕ → ℕ → ℕ
  | 0, result => result
  | fuel + 1, result => if result < value then npowLoop value fuel (result * 2) else result

/-- Embedding of `_next_power_of_two`. -/
def nextPowerOfTwo (value : ℕ) : ℕ :=
  if value ≤ 1 then max 1 value else npowLoop value value 1

/-! ## Chunk splitting (`matchmaking/services.py`, `_split_into_chunks`) -/

/-- Slicing loop `[participants[i:i+capacity] for i in range(0, len, capacity)]`;
the fuel bounds the loop and the list length always suffices (one element is
consumed per step). -/
def baseChunksAux (cap : ℕ) : ℕ → List α → List (List α)
  | _, [] => []
  | 0, l => [l]
  | fuel + 1, x :: xs => (x :: xs.take (cap - 1)) :: baseChunksAux cap fuel (xs.drop (cap - 1))

/-- Successive slices of at most `cap` elements (for `cap ≥ 1`). -/
def baseChunks (cap : ℕ) (l : List α) : List (List α) :=
  baseChunksAux cap l.length l

/-- Singleton rebalancing on the reversed chunk list (the Python code
indexes `chunks[-1]` and `chunks[-2]`): when the final chunk has exactly
one entry, move the previous chunk's last element into it if the previous
chunk has more than two elements, else merge the two chunks when they fit
within the capacity. -/
def fixLastSingletonRev (capacity : ℕ) : List (List α) → List (List α)
  | lastChunk :: prev :: frontRev =>
    if lastChunk.length = 1 then
      if 2 < prev.length then
        match prev.getLast? with
        | some x => (x :: lastChunk) :: prev.dropLast :: frontRev
        | none => lastChunk :: prev :: frontRev
      else if prev.length + lastChunk.length ≤ capacity then
        (prev ++ lastChunk) :: frontRev
      else lastChunk :: prev :: frontRev
    else lastChunk :: prev :: frontRev
  | l => l

/-- Embedding of the singleton-rebalancing step of `_split_into_chunks`
(`if len(chunks) > 1 and len(chunks[-1]) == 1`). -/
def fixLastSingleton (capacity : ℕ) (chunks : List (List α)) : List (List α) :=
  (fixLastSingletonRev capacity chunks.reverse).reverse

/-- Embedding of `_split_into_chunks`: a non-positive capacity is coerced
to 1, the list is sliced, the final singleton is rebalanced, and an empty
result becomes a single empty chunk. -/
def splitIntoChunks (participants : List α) (capacity : ℕ) : List (List α) :=
  let cap := if capacity = 0 then 1 else capacity
  let chunks := fixLastSingleton cap (baseChunks cap participants)
  if chunks.isEmpty then [[]] else chunks

/-! ## Group sorting and bracket creation
(`matchmaking/services.py`, `generate_brackets_for_event`, lines 124-159)

A classified registration is reduced to the fields the generation loop
reads: weight (`Decimal` as `ℚ`), birth date (encoded as a day number;
classification has already rejected registrations without one) and the
primary key. -/

structure Participant where
  weightKg : ℚ
  birthDate : ℕ
  pk : ℕ
deriving Repr, DecidableEq

instance : Inhabited Participant := ⟨⟨0, 0, 0⟩⟩

/-- Python tuple ordering of the sort key
`(weight_kg, birth_date, pk)` (lexicographic). -/
def participantKeyLE (a b : Participant) : Prop :=
  a.weightKg < b.weightKg ∨
    (a.weightKg = b.weightKg ∧
      (a.birthDate < b.birthDate ∨ (a.birthDate = b.birthDate ∧ a.pk ≤ b.pk)))

instance : DecidableRel participantKeyLE := fun a b => by
  unfold participantKeyLE; exact inferInstance

/-- Python `sorted` is a stable sort by the key; `List.insertionSort` with
the same total key order computes the same list. -/
def sortParticipants (group : List Participant) : List Participant :=
  List.insertionSort participantKeyLE group

structure EntryRec where
  reg : Participant
  seed : ℕ
  slot : ℕ
deriving Repr, DecidableEq

structure BracketRec where
  bracketIndex : ℕ
  size : ℕ
  entries : List EntryRec
deriving Repr, DecidableEq

/-- Embedding of the per-group part of `generate_brackets_for_event`:
sort, split into capacity-bounded chunks, then for each chunk create a
bracket whose `size` is the next power of two for more than one entry (a
zero size is coerced to 1 by `size or 1`) and whose entries are seeded in
chunk order with `seed = slot` = 1-based position. -/
def generateGroupBrackets (group : List Participant) (maxFights : ℕ) : List BracketRec :=
  let sorted := sortParticipants group
  let capacity := max 1 (2 ^ maxFights)
  let chunks := splitIntoChunks sorted capacity
  chunks.enum.map fun ic =>
    let size := if ic.2.length > 1 then nextPowerOfTwo ic.2.length else ic.2.length
    { bracketIndex := ic.1 + 1
      size := if size = 0 then 1 else size
      entries := ic.2.enum.map fun jp => { reg := jp.2, seed := jp.1 + 1, slot := jp.1 + 1 } }

/-! ## Match-tree construction (`matchmaking/services.py`,
`_build_matches_for_bracket`)

A match node records the fields the claims speak about; entries are
referenced by their id and source matches by their 1-based position in
the previous round (matches are uniquely addressed by round and
position). -/

structure MatchNode where
  position : ℕ
  blue : Option ℕ
  red : Option ℕ
  blueSrc : Option ℕ
  redSrc : Option ℕ
  isBye : Bool
  winner : Option ℕ
deriving Repr, DecidableEq

/-- Pair up consecutive elements, the `range(0, n, 2)` iteration pattern;
an odd tail pairs with nothing. -/
def pairConsecutive : List α → List (α × Option α)
  | [] => []
  | [x] => [(x, none)]
  | x :: y :: rest => (x, some y) :: pairConsecutive rest

/-- Round-1 construction: both-empty slot pairs are skipped, positions
number the created matches from 1, a bye is exactly one populated side
and its winner is `blue or red`. -/
def round1 (slots : List (Option ℕ)) : List MatchNode :=
  let pairs := (pairConsecutive slots).map fun p => (p.1, p.2.getD none)
  let kept := pairs.filter fun p => p.1.isSome || p.2.isSome
  kept.enum.map fun ip =>
    let bye := ip.2.1.isSome != ip.2.2.isSome
    { position := ip.1 + 1
      blue := ip.2.1
      red := ip.2.2
      blueSrc := none
      redSrc := none
      isBye := bye
      winner := if bye then (if ip.2.1.isSome then ip.2.1 else ip.2.2) else none }

/-- Later-round construction from the previous round: consecutive matches
pair up, sources are referenced by position, and blue/red entries are
pre-filled with the source winners when already known. -/
def nextRound (prev : List MatchNode) : List MatchNode :=
  (pairConsecutive prev).enum.map fun ip =>
    { position := ip.1 + 1
      blue := ip.2.1.winner
      red :=
        match ip.2.2 with
        | some r => r.winner
        | none => none
      blueSrc := some ip.2.1.position
      redSrc := (ip.2.2).map (·.position)
      isBye := false
      winner := none }

/-- Loop `while len(current_round) > 1`; the fuel bounds the loop and the
current round length always suffices (each round at least halves). -/
def laterRoundsAux : ℕ → List MatchNode → List (List MatchNode)
  | 0, _ => []
  | fuel + 1, current =>
    if current.length ≤ 1 then []
    else
      let nr := nextRound current
      nr :: laterRoundsAux fuel nr

/-- Rounds 2, 3, ... built from round 1. -/
def laterRounds (current : List MatchNode) : List (List MatchNode) :=
  laterRoundsAux current.length current

/-- Embedding of `_build_matches_for_bracket`, returning the match list
grouped by round. Entries are `(slot, id)` pairs; with 0 or 1 entries no
match is built; otherwise the slot array of length
`max(stored size, next power of two of the entry count)` is filled
(out-of-range slots are ignored) and the rounds are built. -/
def buildMatchesForBracket (storedSize : ℕ) (entries : List (ℕ × ℕ)) :
    List (List MatchNode) :=
  if entries.length ≤ 1 then []
  else
    let size := max storedSize (nextPowerOfTwo entries.length)
    let slots := (List.range size).map fun i =>
      (entries.find? (fun e => e.1 = i + 1)).map (·.2)
    let r1 := round1 slots
    if r1.isEmpty then [] else r1 :: laterRounds r1


/-! # Theorems -/

/-! ## Helper lemmas -/

/-- Appending to the fixed Bearer text never yields the empty string. -/
theorem bearer_append_ne_empty (s : String) : "Bearer " ++ s ≠ "" := by
  intro h
  have h2 := congrArg String.data h
  rw [String.data_append] at h2
  simp at h2

/-- Acceptance condition of one candidate header inside `_has_valid_token`. -/
theorem tokenCandidateAccepted (secret : String) (hs : secret ≠ "") (c : Option String) :
    ((match c with
      | none => false
      | some t => (t != "") && (t == secret || t == "Bearer " ++ secret)) = true) ↔
      (c = some secret ∨ c = some ("Bearer " ++ secret)) := by
  cases c with
  | none => simp
  | some t =>
    simp only [Bool.and_eq_true, Bool.or_eq_true, bne_iff_ne, ne_eq, beq_iff_eq,
      Option.some.injEq]
    constructor
    · rintro ⟨-, hor⟩
      exact hor
    · rintro (rfl | rfl)
      · exact ⟨hs, Or.inl rfl⟩
      · exact ⟨bearer_append_ne_empty secret, Or.inr rfl⟩

/-! ## C7 -/

/-- C7: the claim says the dashboard reports the total event count over all
events plus the published count; the code computes both figures from the
already-published-filtered queryset, so with one unpublished and one
published event the summary reports `total = 1` even though two events
exist, and in general the `total` figure equals the published count. -/
theorem C7_dashboard_total_counts_only_published :
    dashboardEventSummary [⟨false, 5⟩, ⟨true, 5⟩] 0 = ⟨1, 1, 1⟩ ∧
    ([⟨false, 5⟩, ⟨true, 5⟩] : List EventRow).length = 2 ∧
    (∀ (events : List EventRow) (agora : Int),
      (dashboardEventSummary events agora).total =
        (events.filter (·.isPublished)).length) :=
  ⟨by decide, by decide, fun _ _ => rfl⟩

/-! ## C8 -/

/-- C8 (counterexample): for an already-confirmed registration of a paid
event, the staff resend action performs a gateway call and resets the
status to pending, while the self-service flow performs no gateway call
and leaves the status confirmed — the two are not equivalent there. -/
theorem C8_counterexample :
    registrationPaymentActionResend ⟨"confirmed", false⟩ (.success true) =
      ⟨⟨"pending", false⟩, 1, [.successLink]⟩ ∧
    lookupHandlePayment ⟨"confirmed", false⟩ (.success true) =
      ⟨⟨"confirmed", false⟩, 0, [.infoAlreadyConfirmed]⟩ :=
  ⟨rfl, rfl⟩

/-- C8 (amended): the staff resend action always performs exactly one
gateway call and, when the gateway succeeds, forces the registration
status to pending (on failure the status is untouched); the self-service
flow for an already-confirmed paid registration performs no gateway call
and changes nothing. -/
theorem C8_staff_resend_behaviour (reg : RegistrationState) (g : GatewayOutcome) :
    (registrationPaymentActionResend reg g).gatewayCalls = 1 ∧
    ((registrationPaymentActionResend reg g).registration.status =
      match g with
      | .success _ => "pending"
      | _ => reg.status) ∧
    (registrationPaymentActionResend reg g).registration.eventIsFree = reg.eventIsFree ∧
    (lookupHandlePayment ⟨"confirmed", false⟩ g =
      ⟨⟨"confirmed", false⟩, 0, [.infoAlreadyConfirmed]⟩) := by
  refine ⟨?_, ?_, ?_, ?_⟩ <;>
    cases g <;>
    simp [registrationPaymentActionResend, lookupHandlePayment] <;>
    split <;>
    simp_all

/-! ## C2 -/

/-- C2: weight tokens parse into successive ranges — for the token list
`28, 32, +32` the ranges are `(0, 28]`, `(28, 32]` and the open-ended
`(32, ∞)` labelled `+32`; membership is `lower < weight ≤ upper` except
that a zero lower bound only requires `weight ≤ upper`, an open-ended
range contains exactly the weights strictly above its lower bound; weight
28 falls in the first range, 28.5 in the second and 40 in the third. -/
theorem C2_weight_ranges :
    buildWeightRanges ["28", "32", "+32"] =
      .ok [{ label := "28", lower := 0, upper := some 28 },
           { label := "32", lower := 28, upper := some 32 },
           { label := "+32", lower := 32, upper := none }] ∧
    (∀ (r : WeightRange) (w : ℚ),
      r.contains w = true ↔
        (match r.upper with
         | some u => if r.lower = 0 then w ≤ u else r.lower < w ∧ w ≤ u
         | none => r.lower < w)) ∧
    WeightRange.contains { label := "28", lower := 0, upper := some 28 } 28 = true ∧
    WeightRange.contains { label := "32", lower := 28, upper := some 32 } (57 / 2) = true ∧
    WeightRange.contains { label := "+32", lower := 32, upper := none } 40 = true := by
  refine ⟨by decide, ?_, by decide, ?_, by decide⟩
  · intro r w
    unfold WeightRange.contains
    rcases r with ⟨label, lower, upper⟩
    cases upper with
    | none => simp
    | some u =>
      by_cases h0 : lower = 0 <;> simp [h0]
  · show (if (28 : ℚ) = 0 then decide ((57 : ℚ) / 2 ≤ 32) else _) = true
    norm_num

/-! ## C5 -/

/-- Shape of every successful result of the digit-level normalisation:
a 55 country code followed by a 10- or 11-digit national number. -/
theorem cleanWhatsappDigits_ok_shape (ds l : List Char)
    (h : cleanWhatsappDigits ds = .ok l) :
    ∃ national : List Char, l = '5' :: '5' :: national ∧
      (national.length = 10 ∨ national.length = 11) := by
  unfold cleanWhatsappDigits at h
  split_ifs at h with h1 h2
  exact ⟨cleanWhatsappNational ds, (Except.ok.inj h).symm, h2⟩

/-- C5: WhatsApp normalisation strips non-digits, strips a leading 00,
peels an optional leading 55, accepts exactly 10- or 11-digit national
numbers and stores 55 followed by the national number: the 11-digit input
11999999999 stores 5511999999999, the input 123456 is rejected with the
format-instruction message, an already-prefixed 13-digit number is stored
unchanged, and every accepted value is 55 plus a 10- or 11-digit national
number. -/
theorem C5_whatsapp_normalisation :
    cleanWhatsapp "11999999999" = .ok "5511999999999" ∧
    cleanWhatsapp "123456" =
      .error "Informe o WhatsApp com DDI 55, DDD e numero (10 ou 11 digitos)." ∧
    (∀ s : String, s.data.all Char.isDigit = true → s.data.length = 13 →
      s.data.take 2 = ['5', '5'] → cleanWhatsapp s = .ok s) ∧
    (∀ (raw out : String), cleanWhatsapp raw = .ok out →
      ∃ national : List Char, out.data = '5' :: '5' :: national ∧
        (national.length = 10 ∨ national.length = 11)) := by
  refine ⟨by decide, by decide, ?_, ?_⟩
  · intro s hdig hlen htake
    have hfilter : s.data.filter Char.isDigit = s.data :=
      List.filter_eq_self.mpr (by simpa [List.all_eq_true] using hdig)
    have hsplit : s.data = '5' :: '5' :: s.data.drop 2 := by
      conv_lhs => rw [← List.take_append_drop 2 s.data]
      rw [htake]
      rfl
    have h00 : ¬(s.data.take 2 = ['0', '0']) := by rw [htake]; decide
    have hstrip : cleanWhatsappStrip00 s.data = s.data := if_neg h00
    have hnat : cleanWhatsappNational s.data = s.data.drop 2 := by
      unfold cleanWhatsappNational
      rw [hstrip, if_pos htake]
    have hne : ¬(s.data.isEmpty = true) := by rw [hsplit]; simp
    have hdroplen : (s.data.drop 2).length = 11 := by
      rw [List.length_drop, hlen]
    unfold cleanWhatsapp
    rw [hfilter]
    unfold cleanWhatsappDigits
    rw [if_neg hne, hnat, hdroplen, if_pos (Or.inr rfl)]
    show Except.ok (String.mk ('5' :: '5' :: s.data.drop 2)) = Except.ok s
    rw [← hsplit]
  · intro raw out h
    unfold cleanWhatsapp at h
    cases hc : cleanWhatsappDigits (raw.data.filter Char.isDigit) with
    | error e => rw [hc] at h; exact absurd h (by simp [Except.map])
    | ok l =>
      rw [hc] at h
      obtain ⟨national, rfl, hlen⟩ := cleanWhatsappDigits_ok_shape _ _ hc
      simp only [Except.map] at h
      cases h
      exact ⟨national, rfl, hlen⟩

/-- C5 witness: concrete runs of the normalisation through the theorem. -/
theorem C5_whatsapp_normalisation_witness :
    cleanWhatsapp "5511999999999" = .ok "5511999999999" :=
  C5_whatsapp_normalisation.2.2.1 "5511999999999" (by decide) (by decide) (by decide)

/-! ## C9 -/

/-- C9: with a configured secret the token check accepts exactly when one
of the three headers carries the secret verbatim or with the Bearer
prefix; in particular a bare secret in Authorization is accepted and the
Bearer form is accepted in any of the three headers. -/
theorem C9_token_check_characterisation (secret : String) (h : WebhookHeaders)
    (hs : secret ≠ "") :
    (hasValidToken secret h = true ↔
      (h.xAsaasToken = some secret ∨ h.xAsaasToken = some ("Bearer " ++ secret) ∨
       h.asaasAccessToken = some secret ∨ h.asaasAccessToken = some ("Bearer " ++ secret) ∨
       h.authorization = some secret ∨ h.authorization = some ("Bearer " ++ secret))) ∧
    (h.authorization = some secret → hasValidToken secret h = true) ∧
    (h.xAsaasToken = some ("Bearer " ++ secret) → hasValidToken secret h = true) ∧
    (h.asaasAccessToken = some ("Bearer " ++ secret) → hasValidToken secret h = true) := by
  have hiff : hasValidToken secret h = true ↔
      (h.xAsaasToken = some secret ∨ h.xAsaasToken = some ("Bearer " ++ secret) ∨
       h.asaasAccessToken = some secret ∨ h.asaasAccessToken = some ("Bearer " ++ secret) ∨
       h.authorization = some secret ∨ h.authorization = some ("Bearer " ++ secret)) := by
    unfold hasValidToken
    rw [if_neg hs]
    simp only [List.any_cons, List.any_nil, Bool.or_eq_true, Bool.or_eq_false_iff]
    rw [tokenCandidateAccepted secret hs, tokenCandidateAccepted secret hs,
      tokenCandidateAccepted secret hs]
    tauto
  refine ⟨hiff, ?_, ?_, ?_⟩ <;> intro hx <;> rw [hiff] <;> tauto

/-- C9 witness: a bare secret in the Authorization header is accepted. -/
theorem C9_token_check_witness :
    hasValidToken "s3cr3t" ⟨none, none, some "s3cr3t"⟩ = true :=
  (C9_token_check_characterisation "s3cr3t" ⟨none, none, some "s3cr3t"⟩ (by decide)).2.1 rfl

/-! ## C6 -/

/-- C6: with a configured secret, a request carrying no accepted token
form in any of the three headers is answered with the 403 response and
the payment rows are returned untouched, whatever the body; with no
secret configured the token check accepts every request. -/
theorem C6_webhook_rejects_bad_token (secret : String) (h : WebhookHeaders)
    (body : Option Json) (now : ℕ) (payments : List PaymentRec)
    (hs : secret ≠ "")
    (ha : h.xAsaasToken ≠ some secret) (hb : h.xAsaasToken ≠ some ("Bearer " ++ secret))
    (hc : h.asaasAccessToken ≠ some secret)
    (hd : h.asaasAccessToken ≠ some ("Bearer " ++ secret))
    (he : h.authorization ≠ some secret)
    (hf : h.authorization ≠ some ("Bearer " ++ secret)) :
    asaasWebhook secret h body now payments = (.forbidden, payments) ∧
    (∀ g : WebhookHeaders, hasValidToken "" g = true) := by
  have hv : hasValidToken secret h = false := by
    cases hvt : hasValidToken secret h with
    | false => rfl
    | true =>
      rcases (C9_token_check_characterisation secret h hs).1.mp hvt with
        hx | hx | hx | hx | hx | hx <;> simp_all
  refine ⟨?_, fun g => by unfold hasValidToken; rw [if_pos rfl]⟩
  unfold asaasWebhook
  rw [hv]
  rfl

/-- C6 witness: a wrong bare token and a wrong Bearer token are rejected
with 403 and the stored payment is untouched. -/
theorem C6_webhook_rejects_bad_token_witness :
    asaasWebhook "s3cr3t" ⟨some "wrong", none, some "Bearer nope"⟩
      (some (Json.obj [("id", Json.str "p1"), ("status", Json.str "RECEIVED")])) 3
      [⟨"p1", Json.str "PENDING", none, Json.obj [], "pending"⟩] =
      (.forbidden, [⟨"p1", Json.str "PENDING", none, Json.obj [], "pending"⟩]) :=
  (C6_webhook_rejects_bad_token "s3cr3t" ⟨some "wrong", none, some "Bearer nope"⟩
    (some (Json.obj [("id", Json.str "p1"), ("status", Json.str "RECEIVED")])) 3
    [⟨"p1", Json.str "PENDING", none, Json.obj [], "pending"⟩]
    (by decide) (by decide) (by decide) (by decide) (by decide) (by decide) (by decide)).1

/-! ## C1 -/

/-- A JSON value with a successful field lookup is an object. -/
theorem Json.get_eq_some_obj {j : Json} {k : String} {v : Json}
    (h : j.get k = some v) : ∃ fs, j = Json.obj fs := by
  cases j with
  | obj fs => exact ⟨fs, rfl⟩
  | null => simp [Json.get] at h
  | bool b => simp [Json.get] at h
  | num n => simp [Json.get] at h
  | str s => simp [Json.get] at h

/-- Effect of the webhook update for a paid status string. -/
theorem webhookApplyUpdate_paid (pd : Json) (now : ℕ) (p : PaymentRec) (s : String)
    (hs : pd.get "status" = some (Json.str s))
    (hpaid : s = "RECEIVED" ∨ s = "CONFIRMED") :
    webhookApplyUpdate pd now p =
      { p with status := Json.str s, paidAt := some now, payload := pd,
               regStatus := "confirmed" } := by
  unfold webhookApplyUpdate webhookStatusPaid
  rw [hs]
  rcases hpaid with rfl | rfl <;>
    simp [Json.isStr, PaymentRec.markAsPaid, Json.truthy]

/-- Effect of the webhook update for a truthy non-paid status: only the
status and payload fields change. -/
theorem webhookApplyUpdate_other (pd : Json) (now : ℕ) (p : PaymentRec) (s : Json)
    (hs : pd.get "status" = some s) (ht : s.truthy = true)
    (h1 : s.isStr "RECEIVED" = false) (h2 : s.isStr "CONFIRMED" = false) :
    webhookApplyUpdate pd now p = { p with status := s, payload := pd } := by
  unfold webhookApplyUpdate webhookStatusPaid
  simp [hs, h1, h2, ht]

/-- Behaviour of the handler when the guards pass and the payment exists. -/
theorem asaasWebhook_found (secret : String) (h : WebhookHeaders)
    (now : ℕ) (payments : List PaymentRec) (topFields : List (String × Json)) (pid : String)
    (hAuth : hasValidToken secret h = true)
    (hid : (paymentDataOf (Json.obj topFields)).get "id" = some (Json.str pid))
    (hpid : pid ≠ "")
    (hfound : payments.any (fun p => (Json.str pid).isStr p.asaasId) = true) :
    asaasWebhook secret h (some (Json.obj topFields)) now payments =
      (.ok, payments.map fun p =>
        if (Json.str pid).isStr p.asaasId then
          webhookApplyUpdate (paymentDataOf (Json.obj topFields)) now p
        else p) := by
  obtain ⟨pdf, hpd⟩ := Json.get_eq_some_obj hid
  have htruthy : (Json.str pid).truthy = true := by
    simp [Json.truthy, hpid]
  unfold asaasWebhook
  rw [hAuth]
  simp only [Bool.not_true, Bool.false_eq_true, if_false]
  rw [hpd] at hid ⊢
  simp only [hid, htruthy, Bool.not_true, Bool.false_eq_true, if_false, hfound, if_true]

/-- C1: an authenticated webhook call whose payment data carries the id
of a stored Payment answers the generic acknowledgment and updates
exactly that row: a RECEIVED or CONFIRMED status runs the mark-as-paid
cascade (status stored, paid-at set to now, payload snapshot replaced,
is-paid true, registration confirmed), any other truthy status updates
only the stored status and payload snapshot with no cascade, and rows
with other ids are untouched. -/
theorem C1_webhook_status_update (secret : String) (h : WebhookHeaders)
    (now : ℕ) (payments : List PaymentRec) (topFields : List (String × Json)) (pid : String)
    (hAuth : hasValidToken secret h = true)
    (hid : (paymentDataOf (Json.obj topFields)).get "id" = some (Json.str pid))
    (hpid : pid ≠ "")
    (hexists : ∃ p ∈ payments, p.asaasId = pid) :
    (asaasWebhook secret h (some (Json.obj topFields)) now payments).1 = .ok ∧
    (∀ i p, payments.get? i = some p → p.asaasId ≠ pid →
      (asaasWebhook secret h (some (Json.obj topFields)) now payments).2.get? i = some p) ∧
    (∀ i p, payments.get? i = some p → p.asaasId = pid →
      ∀ s, (paymentDataOf (Json.obj topFields)).get "status" = some (Json.str s) →
        (s = "RECEIVED" ∨ s = "CONFIRMED") →
        (asaasWebhook secret h (some (Json.obj topFields)) now payments).2.get? i =
          some { p with status := Json.str s, paidAt := some now,
                        payload := paymentDataOf (Json.obj topFields),
                        regStatus := "confirmed" } ∧
        PaymentRec.isPaid
          { p with status := Json.str s, paidAt := some now,
                   payload := paymentDataOf (Json.obj topFields),
                   regStatus := "confirmed" } = true) ∧
    (∀ i p, payments.get? i = some p → p.asaasId = pid →
      ∀ s, (paymentDataOf (Json.obj topFields)).get "status" = some s →
        s.truthy = true → s.isStr "RECEIVED" = false → s.isStr "CONFIRMED" = false →
        (asaasWebhook secret h (some (Json.obj topFields)) now payments).2.get? i =
          some { p with status := s, payload := paymentDataOf (Json.obj topFields) }) := by
  have hfound : payments.any (fun p => (Json.str pid).isStr p.asaasId) = true := by
    obtain ⟨p, hp, hpe⟩ := hexists
    exact List.any_eq_true.mpr ⟨p, hp, by simp [Json.isStr, hpe]⟩
  have hmain := asaasWebhook_found secret h now payments topFields pid hAuth hid hpid hfound
  refine ⟨by rw [hmain], ?_, ?_, ?_⟩
  · intro i p hi hne
    rw [hmain]
    simp only [List.get?_map, hi, Option.map_some']
    rw [if_neg (by simp [Json.isStr]; exact fun hh => hne hh.symm)]
  · intro i p hi heq s hs hpaid
    refine ⟨?_, ?_⟩
    · rw [hmain]
      simp only [List.get?_map, hi, Option.map_some']
      rw [if_pos (by simp [Json.isStr, heq]), webhookApplyUpdate_paid _ _ _ _ hs hpaid]
    · rcases hpaid with rfl | rfl <;> simp [PaymentRec.isPaid, Json.isStr]
  · intro i p hi heq s hs ht h1 h2
    rw [hmain]
    simp only [List.get?_map, hi, Option.map_some']
    rw [if_pos (by simp [Json.isStr, heq]), webhookApplyUpdate_other _ _ _ _ hs ht h1 h2]

/-- C1 witness: a RECEIVED webhook for payment p1 acknowledges and runs
the paid cascade on the stored row. -/
theorem C1_webhook_status_update_witness :
    (asaasWebhook "" ⟨none, none, none⟩
      (some (Json.obj [("payment",
        Json.obj [("id", Json.str "p1"), ("status", Json.str "RECEIVED")])]))
      7 [⟨"p1", Json.str "PENDING", none, Json.obj [], "pending"⟩]).2.get? 0 =
      some { asaasId := "p1", status := Json.str "RECEIVED", paidAt := some 7,
             payload := Json.obj [("id", Json.str "p1"), ("status", Json.str "RECEIVED")],
             regStatus := "confirmed" } :=
  ((C1_webhook_status_update "" ⟨none, none, none⟩ 7
      [⟨"p1", Json.str "PENDING", none, Json.obj [], "pending"⟩]
      [("payment", Json.obj [("id", Json.str "p1"), ("status", Json.str "RECEIVED")])]
      "p1" rfl rfl (by decide)
      ⟨⟨"p1", Json.str "PENDING", none, Json.obj [], "pending"⟩, by simp, rfl⟩).2.2.1
    0 ⟨"p1", Json.str "PENDING", none, Json.obj [], "pending"⟩ rfl rfl
    "RECEIVED" rfl (Or.inl rfl)).1

/-! ## C10 -/

/-- Slicing never loses or reorders elements. -/
theorem baseChunksAux_flatten {α : Type} (cap : ℕ) :
    ∀ (fuel : ℕ) (l : List α), l.length ≤ fuel →
      (baseChunksAux cap fuel l).flatten = l := by
  intro fuel
  induction fuel with
  | zero =>
    intro l hl
    obtain rfl := List.eq_nil_of_length_eq_zero (Nat.le_zero.mp hl)
    rfl
  | succ n ih =>
    intro l hl
    cases l with
    | nil => rfl
    | cons x xs =>
      simp only [baseChunksAux, List.flatten_cons]
      rw [ih _ (by rw [List.length_drop]; simp at hl; omega)]
      rw [List.cons_append, List.take_append_drop]

/-- Every slice is non-empty. -/
theorem baseChunksAux_ne_nil {α : Type} (cap : ℕ) :
    ∀ (fuel : ℕ) (l : List α), l.length ≤ fuel →
      ∀ c ∈ baseChunksAux cap fuel l, c ≠ [] := by
  intro fuel
  induction fuel with
  | zero =>
    intro l hl
    obtain rfl := List.eq_nil_of_length_eq_zero (Nat.le_zero.mp hl)
    intro c hc
    simp [baseChunksAux] at hc
  | succ n ih =>
    intro l hl
    cases l with
    | nil => intro c hc; simp [baseChunksAux] at hc
    | cons x xs =>
      intro c hc
      simp only [baseChunksAux, List.mem_cons] at hc
      rcases hc with rfl | hc
      · simp
      · exact ih _ (by rw [List.length_drop]; simp at hl; omega) c hc

/-- Every slice has at most `cap` elements (for a positive capacity). -/
theorem baseChunksAux_length_le {α : Type} (cap : ℕ) (hcap : 1 ≤ cap) :
    ∀ (fuel : ℕ) (l : List α), l.length ≤ fuel →
      ∀ c ∈ baseChunksAux cap fuel l, c.length ≤ cap := by
  intro fuel
  induction fuel with
  | zero =>
    intro l hl
    obtain rfl := List.eq_nil_of_length_eq_zero (Nat.le_zero.mp hl)
    intro c hc
    simp [baseChunksAux] at hc
  | succ n ih =>
    intro l hl
    cases l with
    | nil => intro c hc; simp [baseChunksAux] at hc
    | cons x xs =>
      intro c hc
      simp only [baseChunksAux, List.mem_cons] at hc
      rcases hc with rfl | hc
      · simp only [List.length_cons, List.length_take]
        omega
      · exact ih _ (by rw [List.length_drop]; simp at hl; omega) c hc

/-- Rebalancing the last singleton never loses or reorders elements. -/
theorem fixLastSingletonRev_flatten {α : Type} (cap : ℕ) (r : List (List α)) :
    (fixLastSingletonRev cap r).reverse.flatten = r.reverse.flatten := by
  match r with
  | [] => rfl
  | [c] => rfl
  | lastChunk :: prev :: frontRev =>
    simp only [fixLastSingletonRev]
    split_ifs with h1 h2 h3
    · cases hx : prev.getLast? with
      | none => rfl
      | some x =>
        have hp : prev.dropLast ++ [x] = prev := List.dropLast_append_getLast? x hx
        simp only [List.reverse_cons, List.flatten_append, List.flatten_cons,
          List.flatten_nil, List.append_nil, List.append_assoc]
        rw [← hp]
        simp [List.append_assoc]
    · simp [List.flatten_append, List.append_assoc]
    · rfl
    · rfl

/-- Rebalancing keeps every chunk non-empty. -/
theorem fixLastSingletonRev_ne_nil {α : Type} (cap : ℕ) (r : List (List α))
    (hr : ∀ c ∈ r, c ≠ []) :
    ∀ c ∈ fixLastSingletonRev cap r, c ≠ [] := by
  match r with
  | [] => exact hr
  | [c] => exact hr
  | lastChunk :: prev :: frontRev =>
    simp only [fixLastSingletonRev]
    split_ifs with h1 h2 h3
    · cases hx : prev.getLast? with
      | none => exact hr
      | some x =>
        intro c hc
        simp only [List.mem_cons] at hc
        rcases hc with rfl | rfl | hc
        · simp
        · intro hd
          have hp := List.dropLast_append_getLast? x hx
          rw [hd] at hp
          simp at hp
          have hlen : prev.length = 1 := by rw [← hp]; rfl
          omega
        · exact hr c (by simp [hc])
    · intro c hc
      simp only [List.mem_cons] at hc
      rcases hc with rfl | hc
      · have : lastChunk ≠ [] := hr lastChunk (by simp)
        simp [this]
      · exact hr c (by simp [hc])
    · exact hr
    · exact hr

/-- Rebalancing keeps every chunk within the capacity. -/
theorem fixLastSingletonRev_length_le {α : Type} (cap : ℕ) (r : List (List α))
    (hr : ∀ c ∈ r, c.length ≤ cap) :
    ∀ c ∈ fixLastSingletonRev cap r, c.length ≤ cap := by
  match r with
  | [] => exact hr
  | [c] => exact hr
  | lastChunk :: prev :: frontRev =>
    simp only [fixLastSingletonRev]
    split_ifs with h1 h2 h3
    · cases hx : prev.getLast? with
      | none => exact hr
      | some x =>
        have hprev : prev.length ≤ cap := hr prev (by simp)
        intro c hc
        simp only [List.mem_cons] at hc
        rcases hc with rfl | rfl | hc
        · simp only [List.length_cons, h1]
          omega
        · have := List.length_dropLast prev
          omega
        · exact hr c (by simp [hc])
    · intro c hc
      simp only [List.mem_cons] at hc
      rcases hc with rfl | hc
      · rw [List.length_append]
        exact h3
      · exact hr c (by simp [hc])
    · exact hr
    · exact hr

/-- Capacity seen by the chunking code in `_split_into_chunks`. -/
theorem splitIntoChunks_eq_fix {α : Type} (l : List α) (capacity : ℕ)
    (hl : l ≠ []) (hc : 1 ≤ capacity) :
    splitIntoChunks l capacity = fixLastSingleton capacity (baseChunks capacity l) := by
  have hflat : (fixLastSingleton capacity (baseChunks capacity l)).flatten = l := by
    unfold fixLastSingleton baseChunks
    rw [fixLastSingletonRev_flatten, List.reverse_reverse,
      baseChunksAux_flatten capacity l.length l le_rfl]
  have hne : (fixLastSingleton capacity (baseChunks capacity l)).isEmpty = false := by
    rcases hfix : fixLastSingleton capacity (baseChunks capacity l) with - | ⟨c, cs⟩
    · rw [hfix] at hflat
      exact absurd hflat.symm hl
    · rfl
  simp only [splitIntoChunks]
  rw [show (if capacity = 0 then 1 else capacity) = capacity from if_neg (by omega)]
  rw [hne]
  rfl

/-- C10: for a non-empty participant list and a positive capacity, the
chunk splitting used by bracket generation returns non-empty chunks whose
concatenation is the input list in its original order — the rebalancing
of a final singleton never drops, duplicates or reorders a participant. -/
theorem C10_split_into_chunks_partition {α : Type} (l : List α) (capacity : ℕ)
    (hl : l ≠ []) (hc : 1 ≤ capacity) :
    (splitIntoChunks l capacity).flatten = l ∧
    (∀ c ∈ splitIntoChunks l capacity, c ≠ []) := by
  rw [splitIntoChunks_eq_fix l capacity hl hc]
  refine ⟨?_, ?_⟩
  · unfold fixLastSingleton baseChunks
    rw [fixLastSingletonRev_flatten, List.reverse_reverse,
      baseChunksAux_flatten capacity l.length l le_rfl]
  · intro c hc2
    unfold fixLastSingleton baseChunks at hc2
    rw [List.mem_reverse] at hc2
    refine fixLastSingletonRev_ne_nil capacity _ ?_ c hc2
    intro d hd
    rw [List.mem_reverse] at hd
    exact baseChunksAux_ne_nil capacity l.length l le_rfl d hd

/-- C10 witness: five participants split with capacity 2. -/
theorem C10_split_into_chunks_partition_witness :
    (splitIntoChunks [10, 20, 30, 40, 50] 2).flatten = [10, 20, 30, 40, 50] ∧
    (∀ c ∈ splitIntoChunks [10, 20, 30, 40, 50] 2, c ≠ []) :=
  C10_split_into_chunks_partition [10, 20, 30, 40, 50] 2 (by decide) (by decide)

/-! ## C4 -/

/-- Key of the Python sort `(weight_kg, birth_date, pk)` as a
lexicographic product. -/
def participantKey (a : Participant) : Lex (ℚ × Lex (ℕ × ℕ)) :=
  toLex (a.weightKg, toLex (a.birthDate, a.pk))

theorem participantKeyLE_iff (a b : Participant) :
    participantKeyLE a b ↔ participantKey a ≤ participantKey b := by
  unfold participantKeyLE participantKey
  rw [Prod.Lex.le_iff, Prod.Lex.le_iff]

instance : IsTrans Participant participantKeyLE :=
  ⟨fun a b c hab hbc => (participantKeyLE_iff a c).mpr
    (le_trans ((participantKeyLE_iff a b).mp hab) ((participantKeyLE_iff b c).mp hbc))⟩

instance : IsTotal Participant participantKeyLE :=
  ⟨fun a b => (le_total (participantKey a) (participantKey b)).imp
    (participantKeyLE_iff a b).mpr (participantKeyLE_iff b a).mpr⟩

/-- Invariant of the doubling loop: starting from a power of two below
`2 * value` with enough fuel, the loop returns the least power of two
that reaches `value` (characterised by `value ≤ 2 ^ m < 2 * value`). -/
theorem npowLoop_spec (value : ℕ) (fuel : ℕ) :
    ∀ (result k : ℕ), result = 2 ^ k → result < 2 * value →
      value ≤ result * 2 ^ fuel →
      ∃ m, npowLoop value fuel result = 2 ^ m ∧ value ≤ 2 ^ m ∧ 2 ^ m < 2 * value := by
  induction fuel with
  | zero =>
    intro result k hk hlt hle
    subst hk
    rw [pow_zero, mul_one] at hle
    exact ⟨k, rfl, hle, hlt⟩
  | succ nf ih =>
    intro result k hk hlt hle
    subst hk
    simp only [npowLoop]
    by_cases h : 2 ^ k < value
    · rw [if_pos h]
      refine ih (2 ^ k * 2) (k + 1) (by rw [pow_succ]) (by omega) ?_
      rw [pow_succ] at hle
      rw [show 2 ^ k * 2 * 2 ^ nf = 2 ^ k * (2 ^ nf * 2) by ring]
      exact hle
    · rw [if_neg h]
      exact ⟨k, rfl, by omega, hlt⟩

/-- Characterisation of `_next_power_of_two` for inputs at least 2: it
returns the least power of two greater than or equal to its input. -/
theorem nextPowerOfTwo_spec (n : ℕ) (hn : 2 ≤ n) :
    ∃ m, nextPowerOfTwo n = 2 ^ m ∧ n ≤ 2 ^ m ∧ 2 ^ m < 2 * n := by
  unfold nextPowerOfTwo
  rw [if_neg (by omega)]
  exact npowLoop_spec n n 1 0 rfl (by omega)
    (by simpa using (Nat.lt_two_pow n).le)

/-- Rebalancing characterised through the last two chunks of the slicing,
in the claim's phrasing: when the final chunk is a singleton, the previous
chunk's last element is moved into it if the previous chunk has more than
two elements, else the two chunks are merged when they fit within the
capacity; otherwise nothing changes. -/
theorem fixLastSingleton_eq {α : Type} (cap : ℕ) (chunks : List (List α)) :
    fixLastSingleton cap chunks =
      if 2 ≤ chunks.length ∧ (chunks.getLastD []).length = 1 then
        if 2 < (chunks.dropLast.getLastD []).length then
          chunks.dropLast.dropLast ++
            [(chunks.dropLast.getLastD []).dropLast,
             (chunks.dropLast.getLastD []).getLast?.toList ++ chunks.getLastD []]
        else if (chunks.dropLast.getLastD []).length + (chunks.getLastD []).length ≤ cap then
          chunks.dropLast.dropLast ++ [chunks.dropLast.getLastD [] ++ chunks.getLastD []]
        else chunks
      else chunks := by
  rcases List.eq_nil_or_concat chunks with rfl | ⟨front, lastC, rfl⟩
  · rfl
  · rcases List.eq_nil_or_concat front with rfl | ⟨front2, prev, rfl⟩
    · simp only [List.concat_eq_append, List.nil_append]
      rw [if_neg (by simp)]
      rfl
    · simp only [List.concat_eq_append]
      have h1 : ((front2 ++ [prev]) ++ [lastC]).reverse = lastC :: prev :: front2.reverse := by
        simp
      unfold fixLastSingleton
      rw [h1]
      simp only [fixLastSingletonRev]
      rw [List.getLastD_concat, List.dropLast_concat, List.getLastD_concat,
        List.dropLast_concat]
      have hlen2 : 2 ≤ ((front2 ++ [prev]) ++ [lastC]).length := by
        simp
      cases hx : prev.getLast? with
      | none =>
        have hpnil : prev = [] := List.getLast?_eq_none_iff.mp hx
        subst hpnil
        split_ifs with ha hb hc <;> simp_all <;> omega
      | some x =>
        have hp : prev.dropLast ++ [x] = prev := List.dropLast_append_getLast? x hx
        split_ifs with ha hb hc hd he hf hg <;> simp_all <;> omega

/-- Chunk splitting preserves the list (helper shared by the generation
proofs). -/
theorem splitIntoChunks_flatten {α : Type} (l : List α) (capacity : ℕ)
    (hl : l ≠ []) (hc : 1 ≤ capacity) :
    (splitIntoChunks l capacity).flatten = l := by
  rw [splitIntoChunks_eq_fix l capacity hl hc]
  unfold fixLastSingleton baseChunks
  rw [fixLastSingletonRev_flatten, List.reverse_reverse,
    baseChunksAux_flatten capacity l.length l le_rfl]

/-- Chunk lengths after splitting lie between 1 and the capacity. -/
theorem splitIntoChunks_length_bounds {α : Type} (l : List α) (capacity : ℕ)
    (hl : l ≠ []) (hc : 1 ≤ capacity) :
    ∀ c ∈ splitIntoChunks l capacity, 1 ≤ c.length ∧ c.length ≤ capacity := by
  rw [splitIntoChunks_eq_fix l capacity hl hc]
  intro c hc2
  unfold fixLastSingleton baseChunks at hc2
  rw [List.mem_reverse] at hc2
  constructor
  · refine List.length_pos.mpr ?_
    exact fixLastSingletonRev_ne_nil capacity _
      (fun d hd => baseChunksAux_ne_nil capacity l.length l le_rfl d (List.mem_reverse.mp hd))
      c hc2
  · exact fixLastSingletonRev_length_le capacity _
      (fun d hd =>
        baseChunksAux_length_le capacity hc l.length l le_rfl d (List.mem_reverse.mp hd))
      c hc2

/-- Projection of the created entries back to their registrations. -/
theorem entries_map_reg (chunk : List Participant) :
    ((chunk.enum.map fun jp =>
        ({ reg := jp.2, seed := jp.1 + 1, slot := jp.1 + 1 } : EntryRec)).map
      (fun e => e.reg)) = chunk := by
  rw [List.map_map]
  exact List.enum_map_snd chunk

/-- Second components of enumeration members belong to the list. -/
theorem mem_of_mem_enum {α : Type} {x : ℕ × α} {l : List α} (h : x ∈ l.enum) :
    x.2 ∈ l := by
  rw [List.mem_enum_iff_getElem?] at h
  exact List.getElem?_mem h

/-- C4: bracket generation sorts each group ascending by
(weight, birth date, id) — the concatenated bracket entries are exactly
that sorted permutation of the group — assigns seed = slot = 1-based
position, splits into chunks of at most `max 1 (2 ^ max_fights)` entries
with the final-singleton rebalancing (move the previous chunk's last
entry when that chunk has more than 2 entries, else merge when the two
chunks fit within capacity), and sizes every bracket with the least power
of two reaching the chunk length (the chunk length itself for a single
entry). -/
theorem C4_bracket_generation (group : List Participant) (maxFights : ℕ)
    (hg : group ≠ []) :
    ((sortParticipants group).Sorted participantKeyLE ∧
      (sortParticipants group).Perm group) ∧
    ((generateGroupBrackets group maxFights).map
        (fun b => b.entries.map (fun e => e.reg))).flatten = sortParticipants group ∧
    (∀ b ∈ generateGroupBrackets group maxFights,
      ∀ i (h : i < b.entries.length),
        (b.entries.get ⟨i, h⟩).seed = i + 1 ∧ (b.entries.get ⟨i, h⟩).slot = i + 1) ∧
    (∀ b ∈ generateGroupBrackets group maxFights,
      1 ≤ b.entries.length ∧ b.entries.length ≤ max 1 (2 ^ maxFights)) ∧
    (splitIntoChunks (sortParticipants group) (max 1 (2 ^ maxFights)) =
      (let base := baseChunks (max 1 (2 ^ maxFights)) (sortParticipants group)
       if 2 ≤ base.length ∧ (base.getLastD []).length = 1 then
         if 2 < (base.dropLast.getLastD []).length then
           base.dropLast.dropLast ++
             [(base.dropLast.getLastD []).dropLast,
              (base.dropLast.getLastD []).getLast?.toList ++ base.getLastD []]
         else if (base.dropLast.getLastD []).length + (base.getLastD []).length ≤
             max 1 (2 ^ maxFights) then
           base.dropLast.dropLast ++ [base.dropLast.getLastD [] ++ base.getLastD []]
         else base
       else base)) ∧
    (∀ b ∈ generateGroupBrackets group maxFights,
      (b.entries.length = 1 → b.size = 1) ∧
      (2 ≤ b.entries.length →
        ∃ k, b.size = 2 ^ k ∧ b.entries.length ≤ b.size ∧
          b.size < 2 * b.entries.length)) := by
  have hsortedne : sortParticipants group ≠ [] := by
    intro h0
    have hlen := (List.perm_insertionSort participantKeyLE group).length_eq
    unfold sortParticipants at h0
    rw [h0] at hlen
    exact hg (List.eq_nil_of_length_eq_zero hlen.symm)
  have hcap : 1 ≤ max 1 (2 ^ maxFights) := le_max_left _ _
  refine ⟨⟨List.sorted_insertionSort _ _, List.perm_insertionSort _ _⟩, ?_, ?_, ?_, ?_, ?_⟩
  · simp only [generateGroupBrackets, List.map_map]
    have hcong : ∀ ic ∈ (splitIntoChunks (sortParticipants group)
        (max 1 (2 ^ maxFights))).enum,
        ((fun b => b.entries.map (fun e => e.reg)) ∘ fun ic =>
          ({ bracketIndex := ic.1 + 1,
             size := if (if ic.2.length > 1 then nextPowerOfTwo ic.2.length
               else ic.2.length) = 0 then 1
               else if ic.2.length > 1 then nextPowerOfTwo ic.2.length else ic.2.length,
             entries := ic.2.enum.map fun jp =>
               { reg := jp.2, seed := jp.1 + 1, slot := jp.1 + 1 } } : BracketRec)) ic =
          ic.2 := by
      intro ic hic
      exact entries_map_reg ic.2
    rw [List.map_congr_left hcong, List.enum_map_snd]
    exact splitIntoChunks_flatten _ _ hsortedne hcap
  · intro b hb i h
    simp only [generateGroupBrackets, List.mem_map] at hb
    obtain ⟨ic, hic, rfl⟩ := hb
    constructor <;>
      · rw [List.get_eq_getElem]
        simp [List.getElem_map, List.getElem_enum]
  · intro b hb
    simp only [generateGroupBrackets, List.mem_map] at hb
    obtain ⟨ic, hic, rfl⟩ := hb
    have hmem : ic.2 ∈ splitIntoChunks (sortParticipants group) (max 1 (2 ^ maxFights)) :=
      mem_of_mem_enum hic
    have := splitIntoChunks_length_bounds _ _ hsortedne hcap ic.2 hmem
    simpa using this
  · rw [splitIntoChunks_eq_fix _ _ hsortedne hcap, fixLastSingleton_eq]
  · intro b hb
    simp only [generateGroupBrackets, List.mem_map] at hb
    obtain ⟨ic, hic, rfl⟩ := hb
    have hlen : ic.2.length ≥ 1 := by
      have hmem : ic.2 ∈ splitIntoChunks (sortParticipants group) (max 1 (2 ^ maxFights)) :=
        mem_of_mem_enum hic
      exact (splitIntoChunks_length_bounds _ _ hsortedne hcap ic.2 hmem).1
    constructor
    · intro h1
      simp only [List.length_map, List.enum_length] at h1
      simp [h1]
    · intro h2
      simp only [List.length_map, List.enum_length] at h2 ⊢
      obtain ⟨k, hk, hle, hlt⟩ := nextPowerOfTwo_spec ic.2.length h2
      have hgt : ic.2.length > 1 := by omega
      have hsize :
          (if (if ic.2.length > 1 then nextPowerOfTwo ic.2.length else ic.2.length) = 0
            then 1
            else if ic.2.length > 1 then nextPowerOfTwo ic.2.length else ic.2.length) =
            2 ^ k := by
        rw [if_pos hgt, hk, if_neg (by positivity : (0:ℕ) < 2 ^ k).ne']
      exact ⟨k, hsize, by rw [hsize]; exact hle, by rw [hsize]; exact hlt⟩

/-- C4 witness: three athletes with capacity 2 (max one fight); the
brackets carry exactly the weight-sorted group. -/
theorem C4_bracket_generation_witness :
    ((generateGroupBrackets [⟨68, 0, 1⟩, ⟨66, 0, 2⟩, ⟨70, 0, 3⟩] 1).map
        (fun b => b.entries.map (fun e => e.reg))).flatten =
      sortParticipants [⟨68, 0, 1⟩, ⟨66, 0, 2⟩, ⟨70, 0, 3⟩] ∧
    sortParticipants [⟨68, 0, 1⟩, ⟨66, 0, 2⟩, ⟨70, 0, 3⟩] =
      [⟨66, 0, 2⟩, ⟨68, 0, 1⟩, ⟨70, 0, 3⟩] :=
  ⟨(C4_bracket_generation [⟨68, 0, 1⟩, ⟨66, 0, 2⟩, ⟨70, 0, 3⟩] 1 (by decide)).2.1,
   by decide⟩

/-! ## C3 -/

/-- C3 (counterexample): in the bracket a 5-athlete chunk generates
(stored size 8, entries in slots 1-5), round 1 has three matches, so the
second round-2 match pairs the third round-1 match with nothing: it
references a blue source match but no red source match — not the two
source matches the claim asserts for every later-round match. -/
theorem C3_counterexample :
    ((buildMatchesForBracket 8 [(1, 10), (2, 20), (3, 30), (4, 40), (5, 50)]).getD 1
        []).length = 2 ∧
    (∃ m ∈ (buildMatchesForBracket 8 [(1, 10), (2, 20), (3, 30), (4, 40), (5, 50)]).getD 1 [],
      m.blueSrc = some 3 ∧ m.redSrc = none) := by
  decide

/-- Length of the consecutive pairing (the `range(0, n, 2)` loop). -/
theorem pairConsecutive_length {α : Type} :
    ∀ l : List α, (pairConsecutive l).length = (l.length + 1) / 2
  | [] => by simp [pairConsecutive]
  | [_] => by simp [pairConsecutive]
  | _ :: _ :: rest => by
    simp only [pairConsecutive, List.length_cons, pairConsecutive_length rest]
    omega

/-- Element of the consecutive pairing at index `j`. -/
theorem pairConsecutive_get? {α : Type} :
    ∀ (l : List α) (j : ℕ) (b : α), l.get? (2 * j) = some b →
      (pairConsecutive l).get? j = some (b, l.get? (2 * j + 1))
  | [], j, b, h => by simp at h
  | [x], j, b, h => by
    cases j with
    | zero =>
      simp at h
      subst h
      rfl
    | succ n =>
      rw [show 2 * (n + 1) = 2 * n + 2 by ring] at h
      simp at h
  | x :: y :: rest, j, b, h => by
    cases j with
    | zero =>
      simp at h
      subst h
      rfl
    | succ n =>
      have h2 : rest.get? (2 * n) = some b := by
        rw [show 2 * (n + 1) = 2 * n + 1 + 1 by ring] at h
        simpa using h
      have ih := pairConsecutive_get? rest n b h2
      have hr : (x :: y :: rest).get? (2 * (n + 1) + 1) = rest.get? (2 * n + 1) := by
        rw [show 2 * (n + 1) + 1 = 2 * n + 1 + 1 + 1 by ring]
        rfl
      show ((x, some y) :: pairConsecutive rest).get? (n + 1) =
        some (b, (x :: y :: rest).get? (2 * (n + 1) + 1))
      rw [List.get?_cons_succ, ih, hr]

/-- Later-round match built at index `j`: it references the blue source
match and, when the previous round supplies one, the red source match,
pre-filling the corner entries with the source winners when known. -/
theorem nextRound_get? (prev : List MatchNode) (j : ℕ) (b : MatchNode)
    (hb : prev.get? (2 * j) = some b) :
    (nextRound prev).get? j = some
      { position := j + 1
        blue := b.winner
        red := (prev.get? (2 * j + 1)).bind (fun r => r.winner)
        blueSrc := some b.position
        redSrc := (prev.get? (2 * j + 1)).map (fun r => r.position)
        isBye := false
        winner := none } := by
  have hp := pairConsecutive_get? prev j b hb
  unfold nextRound
  rw [List.get?_map, List.enum_get?, hp]
  cases hr : prev.get? (2 * j + 1) with
  | none => rfl
  | some r => rfl

/-- Rounds after the first are each built from the previous one. -/
theorem laterRoundsAux_chain :
    ∀ (fuel : ℕ) (cur : List MatchNode), cur.length ≤ fuel →
      ∀ i, i + 1 < (cur :: laterRoundsAux fuel cur).length →
        (cur :: laterRoundsAux fuel cur).getD (i + 1) [] =
          nextRound ((cur :: laterRoundsAux fuel cur).getD i []) := by
  intro fuel
  induction fuel with
  | zero =>
    intro cur hcur i hi
    simp [laterRoundsAux] at hi
  | succ nf ih =>
    intro cur hcur i hi
    simp only [laterRoundsAux] at hi ⊢
    by_cases hlen : cur.length ≤ 1
    · rw [if_pos hlen] at hi
      simp at hi
    · rw [if_neg hlen] at hi ⊢
      cases i with
      | zero => rfl
      | succ n =>
        have hnr : (nextRound cur).length ≤ nf := by
          have h1 : (nextRound cur).length = (cur.length + 1) / 2 := by
            unfold nextRound
            rw [List.length_map, List.enum_length, pairConsecutive_length]
          omega
        have := ih (nextRound cur) hnr n (by simpa using hi)
        simpa using this

/-- C3 (amended): round 1 pairs consecutive slots skipping both-empty
pairs; a round-1 match is a bye iff exactly one side is populated, a
bye's winner is the sole occupant and a non-bye has no winner; every
later-round match is built from the previous round, referencing its blue
source match and, when the previous round supplies a second match, its
red source, with blue/red entries pre-filled from the source winners when
already known; each built round is `nextRound` of the previous one; and a
3-entry bracket yields exactly one round-1 bye whose winner feeds the
round-2 match. -/
theorem C3_match_tree_amended :
    (∀ slots : List (Option ℕ),
      (round1 slots).map (fun m => (m.blue, m.red)) =
        ((pairConsecutive slots).map (fun p => (p.1, p.2.getD none))).filter
          (fun p => p.1.isSome || p.2.isSome)) ∧
    (∀ slots : List (Option ℕ), ∀ m ∈ round1 slots,
      (m.isBye = true ↔ m.blue.isSome ≠ m.red.isSome) ∧
      (m.isBye = true → m.winner = (if m.blue.isSome then m.blue else m.red)) ∧
      (m.isBye = false → m.winner = none) ∧
      m.blueSrc = none ∧ m.redSrc = none) ∧
    (∀ (prev : List MatchNode) (j : ℕ) (b : MatchNode), prev.get? (2 * j) = some b →
      (nextRound prev).get? j = some
        { position := j + 1
          blue := b.winner
          red := (prev.get? (2 * j + 1)).bind (fun r => r.winner)
          blueSrc := some b.position
          redSrc := (prev.get? (2 * j + 1)).map (fun r => r.position)
          isBye := false
          winner := none }) ∧
    (∀ (storedSize : ℕ) (entries : List (ℕ × ℕ)) (i : ℕ),
      i + 1 < (buildMatchesForBracket storedSize entries).length →
      (buildMatchesForBracket storedSize entries).getD (i + 1) [] =
        nextRound ((buildMatchesForBracket storedSize entries).getD i [])) ∧
    (buildMatchesForBracket 4 [(1, 10), (2, 20), (3, 30)] =
      [[{ position := 1, blue := some 10, red := some 20, blueSrc := none, redSrc := none,
          isBye := false, winner := none },
        { position := 2, blue := some 30, red := none, blueSrc := none, redSrc := none,
          isBye := true, winner := some 30 }],
       [{ position := 1, blue := none, red := some 30, blueSrc := some 1, redSrc := some 2,
          isBye := false, winner := none }]]) := by
  refine ⟨?_, ?_, nextRound_get?, ?_, by decide⟩
  · intro slots
    unfold round1
    rw [List.map_map]
    exact List.enum_map_snd _
  · intro slots m hm
    unfold round1 at hm
    rw [List.mem_map] at hm
    obtain ⟨ip, hip, rfl⟩ := hm
    refine ⟨bne_iff_ne, ?_, ?_, rfl, rfl⟩
    · intro hb
      simp only at hb ⊢
      rw [hb]
      rfl
    · intro hb
      simp only at hb ⊢
      rw [hb]
      rfl
  · intro storedSize entries i hi
    unfold buildMatchesForBracket at hi ⊢
    by_cases he : entries.length ≤ 1
    · rw [if_pos he] at hi
      simp at hi
    · rw [if_neg he] at hi ⊢
      by_cases hr1 :
          (round1 ((List.range (max storedSize (nextPowerOfTwo entries.length))).map
            fun i => (entries.find? (fun e => e.1 = i + 1)).map (fun e => e.2))).isEmpty
      · rw [if_pos hr1] at hi
        simp at hi
      · rw [if_neg hr1] at hi ⊢
        exact laterRoundsAux_chain _ _ le_rfl i hi

/-- C3 witness: the round-2 match for the 3-entry bracket, built from the
two round-1 matches, referencing both sources and pre-filled with the bye
winner. -/
theorem C3_match_tree_amended_witness :
    (nextRound [⟨1, some 10, some 20, none, none, false, none⟩,
                ⟨2, some 30, none, none, none, true, some 30⟩]).get? 0 =
      some ⟨1, none, some 30, some 1, some 2, false, none⟩ :=
  C3_match_tree_amended.2.2.1
    [⟨1, some 10, some 20, none, none, false, none⟩,
     ⟨2, some 30, none, none, none, true, some 30⟩] 0
    ⟨1, some 10, some 20, none, none, false, none⟩ rfl
